import Mathlib

/-!
# HTTP client with a retrying execution strategy

A shallow embedding of `src/http/http.go` (package `http`).

Modelling conventions.

* Go pointers that may be `nil` (`*http.Client`, `*url.URL`, `*http.Response`,
  the `error` interface, and the func value `Execute`) are `Option`s, `none`
  being `nil`.
* Side effects are made explicit by threading a `Trace`, the list of effects
  performed so far (oldest first): transport attempts, log entries and sleeps.
* The behaviour of a transport in a run is given by the result of each of its
  invocations: `HttpClient.Do i req` is what the call of `client.Do(req)`
  returns when `i` invocations of a transport are already on the trace.
* `uint` and `int` are the 64-bit types of the usual targets; the conversion
  `int(retries)` is two's complement reinterpretation.
* A run-time panic (nil dereference, call of a nil func) is the outcome
  `Outcome.panic` of a strategy, `Applied.panic` of an option and `Built.panic`
  of `NewClient`.
* An option is an arbitrary func value: it may be nil, and a call of it may
  change the client, have effects on the trace, return an error, or panic.
-/

namespace http

/-! ## Library types -/

/-- The type `time.Duration`: a signed count of nanoseconds. -/
abbrev Duration := Int

/-- The type `url.URL`, reduced to the fields that identify a target. -/
structure URL where
  Scheme : String
  Host : String
  Path : String
deriving DecidableEq, Repr

/-- The type `http.Header`, a `map[string][]string`, as an association list
with unique keys. -/
abbrev Header := List (String × List String)

/-- Is `c` a byte allowed in a header field name (an RFC 7230 token character)? -/
def validHeaderFieldByte (c : Char) : Bool :=
  c.isAlphanum || "!#$%&*+-.^_|~".data.contains c || c == Char.ofNat 39 || c == Char.ofNat 96

/-- The upper/lower casing pass of `textproto.canonicalMIMEHeaderKey`: the first
letter and every letter after a hyphen in upper case, the others in lower case. -/
def canonicalCase : Bool → List Char → List Char
  | _, [] => []
  | upper, c :: cs =>
    (if upper then c.toUpper else c.toLower) :: canonicalCase (c == '-') cs

/-- The function `textproto.CanonicalMIMEHeaderKey`: a key holding a byte that is
not allowed in a field name is returned unchanged. -/
def CanonicalMIMEHeaderKey (s : String) : String :=
  if s.data.all validHeaderFieldByte then String.mk (canonicalCase true s.data) else s

/-- The map assignment `h[key] = values`. -/
def Header.assign : Header → String → List String → Header
  | [], key, values => [(key, values)]
  | (k, v) :: rest, key, values =>
    if k = key then (k, values) :: rest else (k, v) :: Header.assign rest key values

/-- The map lookup `h[key]`. -/
def Header.lookup : Header → String → Option (List String)
  | [], _ => none
  | (k, v) :: rest, key => if k = key then some v else Header.lookup rest key

/-- The method `Header.Set`: the entry of the canonical form of `key` is
replaced by the single value `value`. -/
def Header.Set (h : Header) (key value : String) : Header :=
  Header.assign h (CanonicalMIMEHeaderKey key) [value]

/-- The type `http.Request`, with the fields `Client.Get` fills in. -/
structure Request where
  Method : String
  URL : Option URL
  Header : Header
deriving DecidableEq, Repr

/-- The type `http.Response`, reduced to its status code and body. -/
structure Response where
  StatusCode : Nat
  Body : String
deriving DecidableEq, Repr

/-- Values of the interface `error`: built by `errors.New`, by `fmt.Errorf`
(kept as format string and argument), a `*url.Error` with an empty `URL` whose
`Op` is `urlErrorOp(method)` (kept as the method) and which wraps `err`, or any
other error a transport reports. -/
inductive Error where
  | new (text : String)
  | errorf (format : String) (arg : Duration)
  | urlError (method : String) (err : Error)
  | other (text : String)
deriving DecidableEq, Repr

/-- The constant `http.MethodGet`. -/
def MethodGet : String := "GET"

/-! ## Effects -/

/-- One observable effect of a run. -/
inductive Event where
  /-- One call `client.Do(req)` and what it returned. -/
  | attempt (req : Request) (resp : Option Response) (err : Option Error)
  /-- One call `logrus.Infof(format, err.Error())`. -/
  | log (format : String) (err : Error)
  /-- One call `time.Sleep(d)`. -/
  | sleep (d : Duration)
deriving DecidableEq, Repr

/-- The effects performed so far, oldest first. -/
abbrev Trace := List Event

/-- Number of transport invocations on a trace. -/
def attempts : Trace → Nat
  | [] => 0
  | Event.attempt _ _ _ :: rest => attempts rest + 1
  | _ :: rest => attempts rest

/-- Number of sleeps on a trace. -/
def sleeps : Trace → Nat
  | [] => 0
  | Event.sleep _ :: rest => sleeps rest + 1
  | _ :: rest => sleeps rest

/-- Number of log entries on a trace. -/
def logs : Trace → Nat
  | [] => 0
  | Event.log _ _ :: rest => logs rest + 1
  | _ :: rest => logs rest

/-- The type `http.Client` (the transport handle): its keep-alive setting and,
for each invocation index, the result of `Do`. -/
structure HttpClient where
  DisableKeepAlives : Bool
  Do : Nat → Request → Option Response × Option Error

/-- Result of a call: the returned `(response, error)` pair, or a panic. -/
inductive Outcome where
  | ret (resp : Option Response) (err : Option Error)
  | panic
deriving DecidableEq, Repr

/-- The error `client.Do` returns for a request without URL. -/
def nilRequestURL (request : Request) : Error :=
  Error.urlError request.Method (Error.new "http: nil Request.URL")

/-- The call `client.Do(request)` on a possibly nil `*http.Client`, `none` being
a panic. `Do` first tests `request.URL == nil` and returns a nil response with
the error `nilRequestURL request` without touching its receiver; only then is
the receiver dereferenced, which panics when it is nil. On a non-nil receiver
the result of the call is the one the field `Do` gives (for a request without
URL the real client gives that same error). A call that returns extends the
trace by the attempt. -/
def clientDo (client : Option HttpClient) (request : Request) (w : Trace) :
    Option ((Option Response × Option Error) × Trace) :=
  match client with
  | none =>
    match request.URL with
    | none =>
      some ((none, some (nilRequestURL request)),
        w ++ [Event.attempt request none (some (nilRequestURL request))])
    | some _ => none
  | some c =>
    let r := c.Do (attempts w) request
    some (r, w ++ [Event.attempt request r.1 r.2])

/-! ## The package -/

/-- The type `Execute`: `func(*http.Client, *http.Request) (*http.Response, error)`. -/
abbrev Execute := Option HttpClient → Request → Trace → Outcome × Trace

/-- The type `Client`. -/
structure Client where
  client : Option HttpClient
  execute : Option Execute

/-- What one call of an option does: it returns, with the client as the call
leaves it and the returned error, or it panics. -/
inductive Applied where
  | ret (client : Client) (err : Option Error)
  | panic

/-- The type `Option` of the package, `func(*Client) error`, for a non-nil func
value: from the client and the trace at the call, what the call does and the
trace extended by its effects. A nil func is `none` in a list of options. -/
abbrev ClientOption := Client → Trace → Applied × Trace

/-- What a call of `NewClient` does: it returns a `(*Client, error)` pair, or it
panics. -/
inductive Built where
  | ret (client : Option Client) (err : Option Error)
  | panic

/-- The variable `inanimateClient`; `net` is the behaviour of the network behind it. -/
def inanimateClient (net : Nat → Request → Option Response × Option Error) : HttpClient :=
  { DisableKeepAlives := true, Do := net }

/-- The function `singleExecute`. -/
def singleExecute : Execute :=
  fun client request w =>
    match clientDo client request w with
    | none => (Outcome.panic, w)
    | some ((resp, err), w1) => (Outcome.ret resp err, w1)

/-- Width in bits of `uint` and `int` (64-bit targets). -/
def uintSize : Nat := 64

/-- The conversion `int(retries)` of a `uint`: two's complement reinterpretation. -/
def toInt (retries : Nat) : Int :=
  let u := retries % 2 ^ uintSize
  if u < 2 ^ (uintSize - 1) then (u : Int) else (u : Int) - 2 ^ uintSize

/-- The format string of the log entry of `retryExecute`. -/
def retryLogFormat : String := "failed to execute request: %s. Retrying"

/-- The loop of `retryExecute`, entered with the counter `retry` equal to the
natural number given (so `retry >= 0` holds). After a failed attempt with
`retry = 0` the test `retry > 0` fails, `retry--` makes the counter negative and
the loop is left: `return nil, err`. -/
def retryLoop (timeout : Duration) (client : Option HttpClient) (request : Request) :
    Nat → Trace → Outcome × Trace
  | 0, w =>
    match clientDo client request w with
    | none => (Outcome.panic, w)
    | some ((resp, none), w1) => (Outcome.ret resp none, w1)
    | some ((_, some e), w1) => (Outcome.ret none (some e), w1)
  | retry + 1, w =>
    match clientDo client request w with
    | none => (Outcome.panic, w)
    | some ((resp, none), w1) => (Outcome.ret resp none, w1)
    | some ((_, some e), w1) =>
      retryLoop timeout client request retry
        (w1 ++ [Event.log retryLogFormat e, Event.sleep timeout])

/-- The function `retryExecute`. When `int(retries)` is negative the loop body
never runs and the zero values of `resp` and `err` are returned. -/
def retryExecute (retries : Nat) (timeout : Duration) : Execute :=
  fun client request w =>
    let retry := toInt retries
    if 0 ≤ retry then retryLoop timeout client request retry.toNat w
    else (Outcome.ret none none, w)

/-- The method `Client.Get`. -/
def Client.Get (c : Client) (url : Option URL) (w : Trace) : Outcome × Trace :=
  match url with
  | none => (Outcome.ret none (some (Error.new "url cannot be nil")), w)
  | some u =>
    let req : Request := { Method := MethodGet, URL := some u, Header := [] }
    let req := { req with Header := Header.Set req.Header "Cache-Control" "no-cache" }
    let req := { req with Header := Header.Set req.Header "Accept-Charset" "utf-8" }
    match c.execute with
    | none => (Outcome.panic, w)
    | some execute => execute c.client req w

/-- The function `WithRetry`. -/
def WithRetry (retries : Nat) (timeout : Duration) : ClientOption :=
  fun client w =>
    if timeout < 0 then
      (Applied.ret client (some (Error.errorf "negative timeout: %s" timeout)), w)
    else (Applied.ret { client with execute := some (retryExecute retries timeout) } none, w)

/-- The function `WithClient`. -/
def WithClient (cli : Option HttpClient) : ClientOption :=
  fun client w =>
    match cli with
    | none => (Applied.ret client (some (Error.new "http client is required")), w)
    | some _ => (Applied.ret { client with client := cli } none, w)

/-- The option loop of `NewClient`, from the client built so far. The call
`opt(client)` of a nil func panics, and so does the loop when the call panics. -/
def applyOptions : Client → List (Option ClientOption) → Trace → Built × Trace
  | client, [], w => (Built.ret (some client) none, w)
  | _, none :: _, w => (Built.panic, w)
  | client, some opt :: opts, w =>
    match opt client w with
    | (Applied.panic, w1) => (Built.panic, w1)
    | (Applied.ret _ (some err), w1) => (Built.ret none (some err), w1)
    | (Applied.ret client1 none, w1) => applyOptions client1 opts w1

/-- The function `NewClient`. -/
def NewClient (net : Nat → Request → Option Response × Option Error)
    (opts : List (Option ClientOption)) (w : Trace) : Built × Trace :=
  applyOptions { client := some (inanimateClient net), execute := some singleExecute } opts w

/-- The client `NewClient` starts from. -/
def defaultClient (net : Nat → Request → Option Response × Option Error) : Client :=
  { client := some (inanimateClient net), execute := some singleExecute }

/-- One option applied to a client and a trace, whatever error it returns: the
client and the trace as the call leaves them. -/
def applyOne (s : Client × Trace) (opt : ClientOption) : Client × Trace :=
  match opt s.1 s.2 with
  | (Applied.ret client _, w) => (client, w)
  | (Applied.panic, w) => (s.1, w)

/-- Applying all options left to right, each to the client and the trace the
previous one left. -/
def applyAll (client : Client) (w : Trace) (opts : List ClientOption) : Client × Trace :=
  opts.foldl applyOne (client, w)

/-- Every option of `opts`, called on the client and the trace the options before
it leave from `client` and `w`, returns without error. -/
def allSucceed (client : Client) (w : Trace) (opts : List ClientOption) : Prop :=
  ∀ p1 o p2, opts = p1 ++ o :: p2 →
    ∃ c2 w2, o (applyAll client w p1).1 (applyAll client w p1).2 = (Applied.ret c2 none, w2)

/-- An option built by `WithRetry` or by `WithClient`. -/
def builtIn (opt : ClientOption) : Prop :=
  (∃ (retries : Nat) (timeout : Duration), opt = WithRetry retries timeout) ∨
  (∃ cli : Option HttpClient, opt = WithClient cli)

/-! ## Sample inputs -/

/-- A transport every attempt of which fails. -/
def alwaysFails : HttpClient :=
  { DisableKeepAlives := false,
    Do := fun _ _ => (none, some (Error.other "connection refused")) }

/-- A transport that fails on attempts `1 .. k - 1` and answers from attempt `k` on. -/
def succeedsAt (k : Nat) : HttpClient :=
  { DisableKeepAlives := false,
    Do := fun i _ =>
      if i + 1 < k then (none, some (Error.other "connection refused"))
      else (some { StatusCode := 200, Body := "ok" }, none) }

/-- A transport whose redirect policy refuses a redirect: `Do` returns the
redirect response together with an error, both non-nil. -/
def redirectRefused : HttpClient :=
  { DisableKeepAlives := false,
    Do := fun _ _ =>
      (some { StatusCode := 302, Body := "" }, some (Error.other "redirect refused")) }

/-- An option that sleeps and then returns without error, the client untouched. -/
def sleepingOption : ClientOption :=
  fun client w => (Applied.ret client none, w ++ [Event.sleep 1])

/-- An option that sleeps and then panics. -/
def panickingOption : ClientOption :=
  fun _ w => (Applied.panic, w ++ [Event.sleep 1])

/-- A target URL. -/
def exampleURL : URL := { Scheme := "https", Host := "example.org", Path := "/" }

/-- The request with method GET, URL `u` and the two fixed headers. -/
def getRequest (u : URL) : Request :=
  { Method := "GET", URL := some u,
    Header := [("Cache-Control", ["no-cache"]), ("Accept-Charset", ["utf-8"])] }

/-- The request for `exampleURL`. -/
def exampleRequest : Request := getRequest exampleURL

/-! ## Shape of the effects of one run of the retry strategy -/

/-- The effects of a run of the retrying strategy are rounds of a failed
attempt, its log entry and a sleep of length `t`, closed by one last attempt. -/
def retryShape (t : Duration) : List Event → Bool
  | [Event.attempt _ _ _] => true
  | Event.attempt _ _ (some e) :: Event.log f e1 :: Event.sleep d :: rest =>
    decide (d = t) && decide (e1 = e) && decide (f = retryLogFormat) && retryShape t rest
  | _ => false

/-- The last transport result recorded on a trace. -/
def lastAttempt : Trace → Option (Option Response × Option Error)
  | [] => none
  | Event.attempt _ resp err :: rest =>
    match lastAttempt rest with
    | none => some (resp, err)
    | some r => some r
  | _ :: rest => lastAttempt rest

/-! ## Counting lemmas -/

theorem attempts_append (a b : Trace) : attempts (a ++ b) = attempts a + attempts b := by
  induction a with
  | nil => simp [attempts]
  | cons e rest ih =>
    cases e
    all_goals simp [attempts, ih]
    all_goals omega

theorem sleeps_append (a b : Trace) : sleeps (a ++ b) = sleeps a + sleeps b := by
  induction a with
  | nil => simp [sleeps]
  | cons e rest ih =>
    cases e
    all_goals simp [sleeps, ih]
    all_goals omega

theorem logs_append (a b : Trace) : logs (a ++ b) = logs a + logs b := by
  induction a with
  | nil => simp [logs]
  | cons e rest ih =>
    cases e
    all_goals simp [logs, ih]
    all_goals omega

theorem toInt_of_lt (r : Nat) (h : r < 2 ^ 63) : toInt r = (r : Int) := by
  have h1 : r % 2 ^ 64 = r := Nat.mod_eq_of_lt (by omega)
  simp only [toInt, uintSize, h1]
  rw [if_pos (by simpa using h)]

theorem toInt_neg (r : Nat) (h : 2 ^ 63 ≤ r % 2 ^ 64) : toInt r < 0 := by
  have h2 : r % 2 ^ 64 < 2 ^ 64 := Nat.mod_lt _ (by norm_num)
  simp only [toInt, uintSize]
  rw [if_neg (by simpa using h)]
  have h3 : ((r % 2 ^ 64 : Nat) : Int) < 2 ^ 64 := by exact_mod_cast h2
  linarith

theorem retryExecute_of_lt (r : Nat) (t : Duration) (h : r < 2 ^ 63)
    (client : Option HttpClient) (req : Request) (w : Trace) :
    retryExecute r t client req w = retryLoop t client req r w := by
  simp [retryExecute, toInt_of_lt r h]

theorem retryExecute_of_overflow (r : Nat) (t : Duration) (h : 2 ^ 63 ≤ r % 2 ^ 64)
    (client : Option HttpClient) (req : Request) (w : Trace) :
    retryExecute r t client req w = (Outcome.ret none none, w) := by
  have h1 := toInt_neg r h
  simp only [retryExecute]
  rw [if_neg (by omega)]

/-! ## The retry loop on a non-nil transport -/

theorem retryShape_round (t : Duration) (req : Request) (resp : Option Response) (e : Error)
    (rest : List Event) :
    retryShape t (Event.attempt req resp (some e) :: Event.log retryLogFormat e ::
      Event.sleep t :: rest) = retryShape t rest := by
  simp [retryShape]

theorem lastAttempt_round (req : Request) (resp : Option Response) (err : Option Error)
    (f : String) (e : Error) (d : Duration) (rest : List Event) (r : Option Response × Option Error)
    (h : lastAttempt rest = some r) :
    lastAttempt (Event.attempt req resp err :: Event.log f e :: Event.sleep d :: rest) = some r := by
  simp [lastAttempt, h]

/-- Complete description of a run of the loop of `retryExecute` entered with
counter `n` on a non-nil transport `c`: it returns, its effects `ev` are rounds
of failed attempt, log entry and sleep followed by a last attempt, all attempts
but the last failed, and the result is that of the last attempt, which is either
the first one without error, or attempt `n + 1` with its error. -/
theorem retryLoop_run (t : Duration) (c : HttpClient) (req : Request) :
    ∀ (n : Nat) (w : Trace), ∃ (ev : List Event) (resp : Option Response) (err : Option Error),
      retryLoop t (some c) req n w = (Outcome.ret resp err, w ++ ev) ∧
      retryShape t ev = true ∧
      1 ≤ attempts ev ∧ attempts ev ≤ n + 1 ∧
      sleeps ev + 1 = attempts ev ∧ logs ev = sleeps ev ∧
      (∀ d, Event.sleep d ∈ ev → d = t) ∧
      lastAttempt ev = some (c.Do (attempts w + attempts ev - 1) req) ∧
      (∀ i, i + 1 < attempts ev → (c.Do (attempts w + i) req).2 ≠ none) ∧
      ((err = none ∧ c.Do (attempts w + attempts ev - 1) req = (resp, none)) ∨
       (resp = none ∧ err ≠ none ∧ err = (c.Do (attempts w + attempts ev - 1) req).2 ∧
         attempts ev = n + 1)) := by
  intro n
  induction n with
  | zero =>
    intro w
    rcases h : c.Do (attempts w) req with ⟨resp, err⟩
    cases err with
    | none =>
      refine ⟨[Event.attempt req resp none], resp, none, ?_⟩
      simp [retryLoop, clientDo, h, retryShape, attempts, sleeps, logs, lastAttempt]
    | some e =>
      refine ⟨[Event.attempt req resp (some e)], none, some e, ?_⟩
      simp [retryLoop, clientDo, h, retryShape, attempts, sleeps, logs, lastAttempt]
  | succ n ih =>
    intro w
    rcases h : c.Do (attempts w) req with ⟨resp, err⟩
    cases err with
    | none =>
      refine ⟨[Event.attempt req resp none], resp, none, ?_⟩
      simp [retryLoop, clientDo, h, retryShape, attempts, sleeps, logs, lastAttempt]
    | some e =>
      obtain ⟨ev, resp1, err1, hrun, hshape, h1, h2, hs, hl, hd, hlast, hfail, hres⟩ :=
        ih (w ++ [Event.attempt req resp (some e)] ++
          [Event.log retryLogFormat e, Event.sleep t])
      have hw : attempts (w ++ [Event.attempt req resp (some e)] ++
          [Event.log retryLogFormat e, Event.sleep t]) = attempts w + 1 := by
        simp [attempts_append, attempts]
      rw [hw] at hlast hfail hres
      have hidx : attempts w + 1 + attempts ev - 1 = attempts w + (attempts ev + 1) - 1 := by
        omega
      rw [hidx] at hlast hres
      refine ⟨Event.attempt req resp (some e) :: Event.log retryLogFormat e ::
        Event.sleep t :: ev, resp1, err1, ?_, ?_, ?_, ?_, ?_, ?_, ?_, ?_, ?_, ?_⟩
      · simp only [List.append_assoc, List.singleton_append, List.cons_append,
          List.nil_append] at hrun
        simp [retryLoop, clientDo, h, hrun]
      · rw [retryShape_round]; exact hshape
      · simp [attempts]
      · simp [attempts]; omega
      · simp [attempts, sleeps]; omega
      · simp [logs, sleeps]; omega
      · intro d hmem
        simp at hmem
        rcases hmem with hmem | hmem
        · exact hmem
        · exact hd d hmem
      · simp only [attempts]
        exact lastAttempt_round _ _ _ _ _ _ _ _ hlast
      · intro i hi
        simp only [attempts] at hi
        cases i with
        | zero => simp [h]
        | succ j =>
          have := hfail j (by omega)
          have hj : attempts w + (j + 1) = attempts w + 1 + j := by omega
          rw [hj]; exact this
      · simp only [attempts]
        rcases hres with ⟨ha, hb⟩ | ⟨ha, hb, hc, hn⟩
        · exact Or.inl ⟨ha, hb⟩
        · exact Or.inr ⟨ha, hb, hc, by omega⟩

/-! ## The retry strategy for `retries` below `2 ^ 63` -/

/-- For `r < 2 ^ 63`, a transport failing on each of the `r + 1` attempts is
invoked exactly `r + 1` times, with `r` sleeps and `r` log entries, and the
result is a nil response with the error of attempt `r + 1`. -/
theorem retryExecute_all_fail (r : Nat) (t : Duration) (c : HttpClient) (req : Request)
    (w : Trace) (hr : r < 2 ^ 63)
    (hfail : ∀ i, i ≤ r → (c.Do (attempts w + i) req).2 ≠ none) :
    ∃ ev : List Event,
      retryExecute r t (some c) req w =
        (Outcome.ret none (c.Do (attempts w + r) req).2, w ++ ev) ∧
      attempts ev = r + 1 ∧ sleeps ev = r ∧ logs ev = r ∧
      lastAttempt ev = some (c.Do (attempts w + r) req) := by
  obtain ⟨ev, resp, err, hrun, -, h1, h2, hs, hl, -, hlast, -, hres⟩ := retryLoop_run t c req r w
  rw [retryExecute_of_lt r t hr]
  rcases hres with ⟨ha, hb⟩ | ⟨ha, hb, hc, hn⟩
  · exfalso
    have := hfail (attempts ev - 1) (by omega)
    have hidx : attempts w + (attempts ev - 1) = attempts w + attempts ev - 1 := by omega
    rw [hidx, hb] at this
    exact this rfl
  · have hidx : attempts w + attempts ev - 1 = attempts w + r := by omega
    rw [hidx] at hc hlast
    refine ⟨ev, ?_, hn, by omega, by omega, hlast⟩
    rw [hrun, ha, hc]

/-- The all-failing case at `retries = 2`, delay 10. -/
theorem retryExecute_all_fail_witness :
    ∃ ev : List Event,
      retryExecute 2 10 (some alwaysFails) exampleRequest [] =
        (Outcome.ret none (alwaysFails.Do (attempts [] + 2) exampleRequest).2, [] ++ ev) ∧
      attempts ev = 2 + 1 ∧ sleeps ev = 2 ∧ logs ev = 2 ∧
      lastAttempt ev = some (alwaysFails.Do (attempts [] + 2) exampleRequest) :=
  retryExecute_all_fail 2 10 alwaysFails exampleRequest [] (by decide)
    (by intro i _; simp [alwaysFails])

/-- For `r < 2 ^ 63` and `1 ≤ k ≤ r + 1`, a transport that fails on attempts
`1 .. k - 1` and returns `resp` without error on attempt `k` is invoked exactly
`k` times, with `k - 1` sleeps, and the result is `resp` with a nil error. -/
theorem retryExecute_first_success (r k : Nat) (t : Duration) (c : HttpClient) (req : Request)
    (w : Trace) (resp : Option Response) (hr : r < 2 ^ 63) (hk1 : 1 ≤ k) (hk2 : k ≤ r + 1)
    (hfail : ∀ i, i + 1 < k → (c.Do (attempts w + i) req).2 ≠ none)
    (hok : c.Do (attempts w + (k - 1)) req = (resp, none)) :
    ∃ ev : List Event,
      retryExecute r t (some c) req w = (Outcome.ret resp none, w ++ ev) ∧
      attempts ev = k ∧ sleeps ev = k - 1 ∧ logs ev = k - 1 ∧
      lastAttempt ev = some (resp, none) := by
  obtain ⟨ev, resp1, err1, hrun, -, h1, h2, hs, hl, -, hlast, hprev, hres⟩ :=
    retryLoop_run t c req r w
  rw [retryExecute_of_lt r t hr]
  have hcount : attempts ev = k := by
    rcases Nat.lt_trichotomy (attempts ev) k with hlt | heq | hgt
    · exfalso
      rcases hres with ⟨ha, hb⟩ | ⟨ha, hb, hc, hn⟩
      · have := hfail (attempts ev - 1) (by omega)
        have hidx : attempts w + (attempts ev - 1) = attempts w + attempts ev - 1 := by omega
        rw [hidx, hb] at this
        exact this rfl
      · omega
    · exact heq
    · exfalso
      have := hprev (k - 1) (by omega)
      rw [hok] at this
      exact this rfl
  have hidx : attempts w + attempts ev - 1 = attempts w + (k - 1) := by omega
  rw [hidx, hok] at hres hlast
  refine ⟨ev, ?_, hcount, by omega, by omega, hlast⟩
  rcases hres with ⟨ha, hb⟩ | ⟨ha, hb, hc, hn⟩
  · have hresp : resp = resp1 := by
      have := congrArg Prod.fst hb
      simpa using this
    rw [hrun, ha, hresp]
  · exact absurd hc hb

/-- The scenario retries 2, delay 10, two failures then a success. -/
theorem retryExecute_first_success_witness :
    ∃ ev : List Event,
      retryExecute 2 10 (some (succeedsAt 3)) exampleRequest [] =
        (Outcome.ret (some { StatusCode := 200, Body := "ok" }) none, [] ++ ev) ∧
      attempts ev = 3 ∧ sleeps ev = 3 - 1 ∧ logs ev = 3 - 1 ∧
      lastAttempt ev = some (some { StatusCode := 200, Body := "ok" }, none) :=
  retryExecute_first_success 2 3 10 (succeedsAt 3) exampleRequest []
    (some { StatusCode := 200, Body := "ok" }) (by decide) (by decide) (by decide)
    (by intro i hi; simp [succeedsAt, attempts, hi])
    (by simp [succeedsAt, attempts])

/-- For `r < 2 ^ 63`, in every run on a non-nil transport the effects are rounds
of failed attempt, log entry and sleep of the configured length, closed by a
last attempt: one sleep less than attempts, between one and `r + 1` attempts. -/
theorem retryExecute_sleeps (r : Nat) (t : Duration) (c : HttpClient) (req : Request)
    (w : Trace) (hr : r < 2 ^ 63) :
    ∃ ev : List Event,
      (retryExecute r t (some c) req w).2 = w ++ ev ∧ retryShape t ev = true ∧
      sleeps ev + 1 = attempts ev ∧ logs ev = sleeps ev ∧
      1 ≤ attempts ev ∧ attempts ev ≤ r + 1 ∧
      (∀ d, Event.sleep d ∈ ev → d = t) := by
  obtain ⟨ev, resp, err, hrun, hshape, h1, h2, hs, hl, hd, -, -, -⟩ := retryLoop_run t c req r w
  rw [retryExecute_of_lt r t hr, hrun]
  exact ⟨ev, rfl, hshape, hs, hl, h1, h2, hd⟩

/-- The shape of a run with one failure then a success. -/
theorem retryExecute_sleeps_witness :
    ∃ ev : List Event,
      (retryExecute 2 10 (some (succeedsAt 2)) exampleRequest []).2 = [] ++ ev ∧
      retryShape 10 ev = true ∧
      sleeps ev + 1 = attempts ev ∧ logs ev = sleeps ev ∧
      1 ≤ attempts ev ∧ attempts ev ≤ 2 + 1 ∧
      (∀ d, Event.sleep d ∈ ev → d = 10) :=
  retryExecute_sleeps 2 10 (succeedsAt 2) exampleRequest [] (by decide)

/-- For `r < 2 ^ 63`, a run on a non-nil transport returns after at least one
attempt, and its result is either the response of the last attempt, which had no
error, with a nil error, or a nil response with the non-nil error of the last
attempt, which then is attempt `r + 1`. Every earlier attempt failed. -/
theorem retryExecute_result (r : Nat) (t : Duration) (c : HttpClient) (req : Request)
    (w : Trace) (hr : r < 2 ^ 63) :
    ∃ (ev : List Event) (resp : Option Response) (err : Option Error),
      retryExecute r t (some c) req w = (Outcome.ret resp err, w ++ ev) ∧
      1 ≤ attempts ev ∧
      ((err = none ∧ lastAttempt ev = some (resp, none)) ∨
       (resp = none ∧ err ≠ none ∧ attempts ev = r + 1 ∧
         ∃ resp1, lastAttempt ev = some (resp1, err))) := by
  obtain ⟨ev, resp, err, hrun, -, h1, -, -, -, -, hlast, -, hres⟩ := retryLoop_run t c req r w
  rw [retryExecute_of_lt r t hr]
  refine ⟨ev, resp, err, hrun, h1, ?_⟩
  rcases hres with ⟨ha, hb⟩ | ⟨ha, hb, hc, hn⟩
  · left
    rw [hb] at hlast
    exact ⟨ha, hlast⟩
  · right
    refine ⟨ha, hb, hn, (c.Do (attempts w + attempts ev - 1) req).1, ?_⟩
    rw [hlast, hc]

/-- The result of a run on a transport returning response and error. -/
theorem retryExecute_result_witness :
    ∃ (ev : List Event) (resp : Option Response) (err : Option Error),
      retryExecute 1 10 (some redirectRefused) exampleRequest [] =
        (Outcome.ret resp err, [] ++ ev) ∧
      1 ≤ attempts ev ∧
      ((err = none ∧ lastAttempt ev = some (resp, none)) ∨
       (resp = none ∧ err ≠ none ∧ attempts ev = 1 + 1 ∧
         ∃ resp1, lastAttempt ev = some (resp1, err))) :=
  retryExecute_result 1 10 redirectRefused exampleRequest [] (by decide)

/-! ## The retry strategy for `retries` from `2 ^ 63` on

The conversion `int(retries)` turns these values into negative counters, the
loop condition `retry >= 0` fails at once, and the zero values are returned. -/

/-- C1, at the failing input `retries = 2 ^ 63`: on a transport every attempt of
which fails, the strategy built by `retryExecute` leaves the trace as it was (no
transport invocation instead of `2 ^ 63 + 1`) and returns a nil response with a
nil error, not the error of an attempt. -/
theorem retryExecute_all_fail_overflow (t : Duration) (req : Request) (w : Trace) :
    (∀ i, (alwaysFails.Do i req).2 ≠ none) ∧
    retryExecute (2 ^ 63) t (some alwaysFails) req w = (Outcome.ret none none, w) ∧
    attempts (retryExecute (2 ^ 63) t (some alwaysFails) req w).2 - attempts w ≠ 2 ^ 63 + 1 := by
  have h := retryExecute_of_overflow (2 ^ 63) t (by norm_num) (some alwaysFails) req w
  refine ⟨?_, h, ?_⟩
  · intro i
    simp [alwaysFails]
  · rw [h]
    simp

/-- C2, at the failing input `retries = 2 ^ 63`, `k = 1`: on a transport whose
first attempt returns a response without error, the strategy built by
`retryExecute` does not invoke the transport (zero invocations instead of one)
and returns a nil response, not the response of attempt `1`. -/
theorem retryExecute_first_success_overflow (t : Duration) (req : Request) (w : Trace) :
    (succeedsAt 1).Do (attempts w) req = (some { StatusCode := 200, Body := "ok" }, none) ∧
    retryExecute (2 ^ 63) t (some (succeedsAt 1)) req w = (Outcome.ret none none, w) ∧
    attempts (retryExecute (2 ^ 63) t (some (succeedsAt 1)) req w).2 - attempts w ≠ 1 ∧
    (retryExecute (2 ^ 63) t (some (succeedsAt 1)) req w).1 ≠
      Outcome.ret (some { StatusCode := 200, Body := "ok" }) none := by
  have h := retryExecute_of_overflow (2 ^ 63) t (by norm_num) (some (succeedsAt 1)) req w
  refine ⟨by simp [succeedsAt], h, ?_, ?_⟩
  · rw [h]
    simp
  · rw [h]
    simp

/-- C3, at the failing input `retries = 2 ^ 64 - 1`: on a transport every
attempt of which fails, a run of the strategy built by `retryExecute` performs
no sleep and no attempt, so the number of sleeps is neither `retries` nor one
less than the number of attempts. -/
theorem retryExecute_sleeps_overflow (t : Duration) (req : Request) (w : Trace) :
    retryExecute (2 ^ 64 - 1) t (some alwaysFails) req w = (Outcome.ret none none, w) ∧
    sleeps (retryExecute (2 ^ 64 - 1) t (some alwaysFails) req w).2 = sleeps w ∧
    attempts (retryExecute (2 ^ 64 - 1) t (some alwaysFails) req w).2 = attempts w ∧
    sleeps (retryExecute (2 ^ 64 - 1) t (some alwaysFails) req w).2 - sleeps w ≠ 2 ^ 64 - 1 ∧
    (sleeps (retryExecute (2 ^ 64 - 1) t (some alwaysFails) req w).2 : Int) - sleeps w ≠
      ((attempts (retryExecute (2 ^ 64 - 1) t (some alwaysFails) req w).2 : Int) -
        attempts w) - 1 := by
  have h := retryExecute_of_overflow (2 ^ 64 - 1) t (by norm_num) (some alwaysFails) req w
  rw [h]
  refine ⟨rfl, rfl, rfl, ?_, ?_⟩
  · simp
  · simp

/-- C5, at the failing input `retries = 2 ^ 63`: whatever the transport and the
request, the strategy built by `retryExecute` returns a nil response with a nil
error and the trace as it was: a result without any attempt having been made. -/
theorem retryExecute_result_overflow (t : Duration) (client : Option HttpClient)
    (req : Request) (w : Trace) :
    retryExecute (2 ^ 63) t client req w = (Outcome.ret none none, w) ∧
    attempts (retryExecute (2 ^ 63) t client req w).2 = attempts w := by
  have h := retryExecute_of_overflow (2 ^ 63) t (by norm_num) client req w
  exact ⟨h, by rw [h]⟩

/-! ## `retryExecute(0, delay)` against `singleExecute()` -/

/-- C4 as stated fails: on a transport returning a non-nil response together
with a non-nil error, `singleExecute` returns both while `retryExecute 0`
returns a nil response with the error. -/
theorem retryExecute_zero_ne_singleExecute :
    singleExecute (some redirectRefused) exampleRequest [] =
      (Outcome.ret (some { StatusCode := 302, Body := "" })
          (some (Error.other "redirect refused")),
        [Event.attempt exampleRequest (some { StatusCode := 302, Body := "" })
          (some (Error.other "redirect refused"))]) ∧
    retryExecute 0 10 (some redirectRefused) exampleRequest [] =
      (Outcome.ret none (some (Error.other "redirect refused")),
        [Event.attempt exampleRequest (some { StatusCode := 302, Body := "" })
          (some (Error.other "redirect refused"))]) ∧
    retryExecute 0 10 (some redirectRefused) exampleRequest [] ≠
      singleExecute (some redirectRefused) exampleRequest [] := by
  decide

/-- C4, amended: on a non-nil transport `retryExecute 0 t` and `singleExecute`
both make exactly one attempt, with no sleep and no log entry, and return the
error of the transport verbatim; `singleExecute` returns the response of the
transport verbatim, `retryExecute 0 t` returns it when the error is nil and a
nil response otherwise. The two results are equal whenever the transport
returns a nil error or a nil response. On a nil transport the two agree as
well: for a request without URL both return a nil response with the error of
`Do` after that one call, for a request with a URL both panic. -/
theorem retryExecute_zero_singleExecute (t : Duration) (c : HttpClient) (req : Request)
    (w : Trace) :
    retryExecute 0 t none req w = singleExecute none req w ∧
    (req.URL = none →
      singleExecute none req w =
        (Outcome.ret none (some (nilRequestURL req)),
          w ++ [Event.attempt req none (some (nilRequestURL req))])) ∧
    (req.URL ≠ none → singleExecute none req w = (Outcome.panic, w)) ∧
    singleExecute (some c) req w =
      (Outcome.ret (c.Do (attempts w) req).1 (c.Do (attempts w) req).2,
        w ++ [Event.attempt req (c.Do (attempts w) req).1 (c.Do (attempts w) req).2]) ∧
    retryExecute 0 t (some c) req w =
      (Outcome.ret (if (c.Do (attempts w) req).2 = none then (c.Do (attempts w) req).1 else none)
          (c.Do (attempts w) req).2,
        w ++ [Event.attempt req (c.Do (attempts w) req).1 (c.Do (attempts w) req).2]) ∧
    (((c.Do (attempts w) req).2 = none ∨ (c.Do (attempts w) req).1 = none) →
      retryExecute 0 t (some c) req w = singleExecute (some c) req w) := by
  have h0 : ∀ cl, retryExecute 0 t cl req w = retryLoop t cl req 0 w :=
    fun cl => retryExecute_of_lt 0 t (by norm_num) cl req w
  rw [h0, h0]
  refine ⟨?_, ?_, ?_, ?_⟩
  · cases hu : req.URL with
    | none => simp [retryLoop, singleExecute, clientDo, hu]
    | some u => simp [retryLoop, singleExecute, clientDo, hu]
  · intro hu
    simp [singleExecute, clientDo, hu]
  · intro hu
    cases hu1 : req.URL with
    | none => exact absurd hu1 hu
    | some u => simp [singleExecute, clientDo, hu1]
  · rcases h : c.Do (attempts w) req with ⟨resp, err⟩
    cases err with
    | none => simp [retryLoop, singleExecute, clientDo, h]
    | some e =>
      simp only [retryLoop, singleExecute, clientDo, h]
      refine ⟨trivial, by simp, ?_⟩
      intro hor
      rcases hor with hor | hor
      · simp at hor
      · have hresp : resp = none := hor
        rw [hresp]

/-- The amended C4 at a transport that fails with a nil response, at a nil
transport with a request without URL, and at a nil transport with a request
with a URL. -/
theorem retryExecute_zero_singleExecute_witness :
    retryExecute 0 10 (some alwaysFails) exampleRequest [] =
      singleExecute (some alwaysFails) exampleRequest [] ∧
    singleExecute none { Method := "GET", URL := none, Header := [] } [] =
      (Outcome.ret none
          (some (Error.urlError "GET" (Error.new "http: nil Request.URL"))),
        [Event.attempt { Method := "GET", URL := none, Header := [] } none
          (some (Error.urlError "GET" (Error.new "http: nil Request.URL")))]) ∧
    singleExecute none exampleRequest [] = (Outcome.panic, []) :=
  ⟨(retryExecute_zero_singleExecute 10 alwaysFails exampleRequest []).2.2.2.2.2
      (Or.inr (by decide)),
    (retryExecute_zero_singleExecute 10 alwaysFails
      { Method := "GET", URL := none, Header := [] } []).2.1 rfl,
    (retryExecute_zero_singleExecute 10 alwaysFails exampleRequest []).2.2.1 (by decide)⟩

/-! ## `Client.Get` -/

/-- C6: for every client and every trace, `Get` with a nil URL returns a nil
response and the error `url cannot be nil`, and leaves the trace as it was:
neither the strategy nor the transport is invoked, and nothing sleeps. -/
theorem Get_nil_url (c : Client) (w : Trace) :
    Client.Get c none w = (Outcome.ret none (some (Error.new "url cannot be nil")), w) ∧
    (∃ e, (Client.Get c none w).1 = Outcome.ret none (some e)) ∧
    attempts (Client.Get c none w).2 = attempts w ∧
    sleeps (Client.Get c none w).2 = sleeps w ∧
    logs (Client.Get c none w).2 = logs w := by
  refine ⟨rfl, ⟨_, rfl⟩, rfl, rfl, rfl⟩

/-- C7: for every transport `cl`, every strategy `ex` and every non-nil URL `u`,
`Get` of the client made of them returns exactly what one call of `ex` returns on
`cl` and `getRequest u`, the request with method GET, URL `u` and the header
map of exactly the two entries Cache-Control = [no-cache] and Accept-Charset = [utf-8]; so it does
for the single and the retry strategy. (Calling the nil strategy of a client
without one panics.) -/
theorem Get_delegates (cl : Option HttpClient) (ex : Execute) (u : URL) (w : Trace)
    (r : Nat) (t : Duration) :
    Client.Get { client := cl, execute := some ex } (some u) w =
      ex cl (getRequest u) w ∧
    Client.Get { client := cl, execute := some singleExecute } (some u) w =
      singleExecute cl (getRequest u) w ∧
    Client.Get { client := cl, execute := some (retryExecute r t) } (some u) w =
      retryExecute r t cl (getRequest u) w ∧
    Client.Get { client := cl, execute := none } (some u) w = (Outcome.panic, w) ∧
    (∀ key, Header.lookup
        (Header.Set (Header.Set [] "Cache-Control" "no-cache") "Accept-Charset" "utf-8") key =
      if key = "Cache-Control" then some ["no-cache"]
      else if key = "Accept-Charset" then some ["utf-8"] else none) := by
  have hh : Header.Set (Header.Set [] "Cache-Control" "no-cache") "Accept-Charset" "utf-8" =
      [("Cache-Control", ["no-cache"]), ("Accept-Charset", ["utf-8"])] := by decide
  have hget : ∀ e : Execute, Client.Get { client := cl, execute := some e } (some u) w =
      e cl (getRequest u) w := by
    intro e
    simp only [Client.Get, MethodGet, hh, getRequest]
  refine ⟨hget ex, hget singleExecute, hget (retryExecute r t), rfl, ?_⟩
  intro key
  rw [hh]
  simp only [Header.lookup]
  by_cases h1 : key = "Cache-Control"
  · simp [h1]
  · by_cases h2 : key = "Accept-Charset"
    · simp [h2]
    · simp [h1, h2, Ne.symm h1, Ne.symm h2]

/-! ## Options and `NewClient` -/

theorem applyOptions_cons_ok (c c1 : Client) (w w1 : Trace) (opt : ClientOption)
    (opts : List (Option ClientOption)) (h : opt c w = (Applied.ret c1 none, w1)) :
    applyOptions c (some opt :: opts) w = applyOptions c1 opts w1 := by
  simp [applyOptions, h]

theorem applyOptions_cons_err (c c1 : Client) (w w1 : Trace) (opt : ClientOption)
    (opts : List (Option ClientOption)) (err : Error)
    (h : opt c w = (Applied.ret c1 (some err), w1)) :
    applyOptions c (some opt :: opts) w = (Built.ret none (some err), w1) := by
  simp [applyOptions, h]

theorem applyOptions_cons_panic (c : Client) (w w1 : Trace) (opt : ClientOption)
    (opts : List (Option ClientOption)) (h : opt c w = (Applied.panic, w1)) :
    applyOptions c (some opt :: opts) w = (Built.panic, w1) := by
  simp [applyOptions, h]

theorem applyOptions_total (opts : List (Option ClientOption)) :
    ∀ (c : Client) (w : Trace),
      (∃ c1 w1, applyOptions c opts w = (Built.ret (some c1) none, w1)) ∨
      (∃ err w1, applyOptions c opts w = (Built.ret none (some err), w1)) ∨
      (∃ w1, applyOptions c opts w = (Built.panic, w1)) := by
  induction opts with
  | nil => intro c w; exact Or.inl ⟨c, w, rfl⟩
  | cons o rest ih =>
    intro c w
    cases o with
    | none => exact Or.inr (Or.inr ⟨w, rfl⟩)
    | some opt =>
      rcases h : opt c w with ⟨a, w1⟩
      cases a with
      | panic => exact Or.inr (Or.inr ⟨w1, applyOptions_cons_panic c w w1 opt rest h⟩)
      | ret c1 e =>
        cases e with
        | none => rw [applyOptions_cons_ok c c1 w w1 opt rest h]; exact ih c1 w1
        | some err =>
          exact Or.inr (Or.inl ⟨err, w1, applyOptions_cons_err c c1 w w1 opt rest err h⟩)

theorem applyOptions_append (pre rest : List (Option ClientOption)) :
    ∀ (c c1 : Client) (w w1 : Trace), applyOptions c pre w = (Built.ret (some c1) none, w1) →
      applyOptions c (pre ++ rest) w = applyOptions c1 rest w1 := by
  induction pre with
  | nil =>
    intro c c1 w w1 h
    simp only [applyOptions, Prod.mk.injEq, Built.ret.injEq, Option.some.injEq, and_true] at h
    rw [h.1, h.2]
    rfl
  | cons o pre ih =>
    intro c c1 w w1 h
    cases o with
    | none => simp [applyOptions] at h
    | some opt =>
      rcases ho : opt c w with ⟨a, w2⟩
      cases a with
      | panic =>
        rw [applyOptions_cons_panic c w w2 opt pre ho] at h
        simp at h
      | ret c2 e =>
        cases e with
        | none =>
          rw [applyOptions_cons_ok c c2 w w2 opt pre ho] at h
          rw [List.cons_append, applyOptions_cons_ok c c2 w w2 opt _ ho]
          exact ih _ _ _ _ h
        | some err =>
          rw [applyOptions_cons_err c c2 w w2 opt pre err ho] at h
          simp at h

theorem applyAll_cons (c c1 : Client) (w w1 : Trace) (e : Option Error) (opt : ClientOption)
    (opts : List ClientOption) (h : opt c w = (Applied.ret c1 e, w1)) :
    applyAll c w (opt :: opts) = applyAll c1 w1 opts := by
  simp [applyAll, applyOne, h]

theorem applyOptions_succeeding (pre : List ClientOption) :
    ∀ (c : Client) (w : Trace), allSucceed c w pre →
      ∀ rest : List (Option ClientOption),
        applyOptions c (pre.map some ++ rest) w =
          applyOptions (applyAll c w pre).1 rest (applyAll c w pre).2 := by
  induction pre with
  | nil => intro c w _ rest; rfl
  | cons o pre ih =>
    intro c w h rest
    obtain ⟨c2, w2, h0⟩ := h [] o pre rfl
    have h0a : o c w = (Applied.ret c2 none, w2) := h0
    rw [List.map_cons, List.cons_append, applyOptions_cons_ok c c2 w w2 o _ h0a,
      applyAll_cons c c2 w w2 none o pre h0a]
    refine ih c2 w2 ?_ rest
    intro p1 o1 p2 hsplit
    have := h (o :: p1) o1 p2 (by rw [hsplit]; rfl)
    rw [applyAll_cons c c2 w w2 none o p1 h0a] at this
    exact this

theorem applyOptions_builtIn (opts : List (Option ClientOption)) :
    ∀ (c : Client) (w : Trace),
      (∀ o, o ∈ opts → ∃ f, o = some f ∧ builtIn f) → c.client ≠ none → c.execute ≠ none →
      (∃ c1, applyOptions c opts w = (Built.ret (some c1) none, w) ∧
        c1.client ≠ none ∧ c1.execute ≠ none) ∨
      (∃ err, applyOptions c opts w = (Built.ret none (some err), w)) := by
  induction opts with
  | nil =>
    intro c w _ hc he
    exact Or.inl ⟨c, rfl, hc, he⟩
  | cons o rest ih =>
    intro c w hb hc he
    have hrest : ∀ o1, o1 ∈ rest → ∃ f, o1 = some f ∧ builtIn f :=
      fun o1 hm => hb o1 (List.mem_cons_of_mem _ hm)
    obtain ⟨f, hf, hbf⟩ := hb o (List.mem_cons_self _ _)
    subst hf
    rcases hbf with ⟨r, t, ho⟩ | ⟨cli, ho⟩
    · subst ho
      by_cases ht : t < 0
      · right
        exact ⟨Error.errorf "negative timeout: %s" t,
          applyOptions_cons_err c c w w _ rest _ (by simp [WithRetry, ht])⟩
      · rw [applyOptions_cons_ok c { c with execute := some (retryExecute r t) } w w _ rest
          (by simp [WithRetry, ht])]
        exact ih _ w hrest hc (by simp)
    · subst ho
      cases cli with
      | none =>
        right
        exact ⟨_, applyOptions_cons_err c c w w _ rest _ rfl⟩
      | some hc1 =>
        rw [applyOptions_cons_ok c { c with client := some hc1 } w w _ rest rfl]
        exact ih _ w hrest (by simp) he

theorem NewClient_def (net : Nat → Request → Option Response × Option Error)
    (opts : List (Option ClientOption)) (w : Trace) :
    NewClient net opts w = applyOptions (defaultClient net) opts w := rfl

theorem NewClient_append_err (net : Nat → Request → Option Response × Option Error)
    (pre post : List (Option ClientOption)) (opt : ClientOption) (c1 c2 : Client)
    (w0 w w1 : Trace) (err : Error)
    (hpre : NewClient net pre w0 = (Built.ret (some c1) none, w))
    (hopt : opt c1 w = (Applied.ret c2 (some err), w1)) :
    NewClient net (pre ++ some opt :: post) w0 = (Built.ret none (some err), w1) := by
  unfold NewClient at hpre ⊢
  rw [applyOptions_append pre (some opt :: post) _ c1 w0 w hpre]
  exact applyOptions_cons_err c1 c2 w w1 opt post err hopt

/-- C8: `WithRetry retries timeout` returns an error exactly when `timeout` is
negative. Then it leaves the client (and the trace) as it was, and `NewClient`
returns a nil client and that error for every option list in which it follows
options that succeed, in particular for the list of this option alone. When
`timeout` is not negative it returns no error and sets the strategy to
`retryExecute retries timeout`, the transport being kept. -/
theorem WithRetry_spec (retries : Nat) (timeout : Duration) (c : Client) (w : Trace) :
    ((∃ c1 e w1, WithRetry retries timeout c w = (Applied.ret c1 (some e), w1)) ↔
      timeout < 0) ∧
    (timeout < 0 →
      WithRetry retries timeout c w =
        (Applied.ret c (some (Error.errorf "negative timeout: %s" timeout)), w) ∧
      (∀ net, NewClient net [some (WithRetry retries timeout)] w =
        (Built.ret none (some (Error.errorf "negative timeout: %s" timeout)), w)) ∧
      (∀ net pre post c1 w0, NewClient net pre w0 = (Built.ret (some c1) none, w) →
        NewClient net (pre ++ some (WithRetry retries timeout) :: post) w0 =
          (Built.ret none (some (Error.errorf "negative timeout: %s" timeout)), w))) ∧
    (0 ≤ timeout →
      WithRetry retries timeout c w =
        (Applied.ret { client := c.client, execute := some (retryExecute retries timeout) }
          none, w)) := by
  by_cases ht : timeout < 0
  · have herr : ∀ c1 : Client, WithRetry retries timeout c1 w =
        (Applied.ret c1 (some (Error.errorf "negative timeout: %s" timeout)), w) := by
      intro c1
      simp [WithRetry, ht]
    refine ⟨⟨fun _ => ht, fun _ => ⟨_, _, _, herr c⟩⟩, fun _ => ⟨herr c, ?_, ?_⟩,
      fun h => absurd ht (not_lt.mpr h)⟩
    · intro net
      exact NewClient_append_err net [] [] _ _ _ w w w _ rfl (herr _)
    · intro net pre post c1 w0 hpre
      exact NewClient_append_err net pre post _ c1 _ w0 w w _ hpre (herr c1)
  · have hok : WithRetry retries timeout c w =
        (Applied.ret { client := c.client, execute := some (retryExecute retries timeout) }
          none, w) := by
      simp [WithRetry, ht]
    refine ⟨⟨?_, fun h => absurd h ht⟩, fun h => absurd h ht, fun _ => hok⟩
    rintro ⟨c1, e, w1, h⟩
    rw [hok] at h
    simp at h

/-- The statement of C8 at `retries = 3` and the negative delay `-1`. -/
theorem WithRetry_spec_witness :
    (-1 : Duration) < 0 ∧
    WithRetry 3 (-1) (defaultClient alwaysFails.Do) [] =
      (Applied.ret (defaultClient alwaysFails.Do)
        (some (Error.errorf "negative timeout: %s" (-1))), []) ∧
    NewClient alwaysFails.Do [some (WithRetry 3 (-1))] [] =
      (Built.ret none (some (Error.errorf "negative timeout: %s" (-1))), []) :=
  ⟨by decide,
    ((WithRetry_spec 3 (-1) (defaultClient alwaysFails.Do) []).2.1 (by decide)).1,
    ((WithRetry_spec 3 (-1) (defaultClient alwaysFails.Do) []).2.1 (by decide)).2.1
      alwaysFails.Do⟩

/-- C9: `WithClient cli` returns an error exactly when `cli` is nil. Then
`NewClient` returns a nil client and that error for every option list in which
it follows options that succeed, in particular for the list of this option
alone. When `cli` is not nil the option returns no error, the transport of the
client is `cli` and its strategy is the one it had. -/
theorem WithClient_spec (cli : Option HttpClient) (c : Client) (w : Trace) :
    ((∃ c1 e w1, WithClient cli c w = (Applied.ret c1 (some e), w1)) ↔ cli = none) ∧
    (cli = none →
      WithClient cli c w = (Applied.ret c (some (Error.new "http client is required")), w) ∧
      (∀ net, NewClient net [some (WithClient cli)] w =
        (Built.ret none (some (Error.new "http client is required")), w)) ∧
      (∀ net pre post c1 w0, NewClient net pre w0 = (Built.ret (some c1) none, w) →
        NewClient net (pre ++ some (WithClient cli) :: post) w0 =
          (Built.ret none (some (Error.new "http client is required")), w))) ∧
    (cli ≠ none →
      WithClient cli c w = (Applied.ret { client := cli, execute := c.execute } none, w) ∧
      (∀ net, NewClient net [some (WithClient cli)] w =
        (Built.ret (some { client := cli, execute := some singleExecute }) none, w))) := by
  cases cli with
  | none =>
    refine ⟨⟨fun _ => rfl, fun _ => ⟨_, _, _, rfl⟩⟩, fun _ => ⟨rfl, ?_, ?_⟩,
      fun h => absurd rfl h⟩
    · intro net
      exact NewClient_append_err net [] [] _ _ _ w w w _ rfl rfl
    · intro net pre post c1 w0 hpre
      exact NewClient_append_err net pre post _ c1 c1 w0 w w _ hpre rfl
  | some hc =>
    refine ⟨⟨?_, fun h => by simp at h⟩, fun h => by simp at h,
      fun _ => ⟨rfl, fun net => rfl⟩⟩
    rintro ⟨c1, e, w1, h⟩
    simp [WithClient] at h

/-- The statement of C9 at a nil and at a non-nil transport. -/
theorem WithClient_spec_witness :
    NewClient alwaysFails.Do [some (WithClient none)] [] =
      (Built.ret none (some (Error.new "http client is required")), []) ∧
    WithClient (some redirectRefused) (defaultClient alwaysFails.Do) [] =
      (Applied.ret { client := some redirectRefused, execute := some singleExecute }
        none, []) :=
  ⟨((WithClient_spec none (defaultClient alwaysFails.Do) []).2.1 rfl).2.1 alwaysFails.Do,
    ((WithClient_spec (some redirectRefused) (defaultClient alwaysFails.Do) []).2.2
      (by simp)).1⟩

/-- C10 as stated fails: for the option list holding one nil option, and for a
list in which a nil option follows an option that succeeds, no option returns an
error, yet `NewClient` returns neither a client with a nil error nor a nil client
with an error: the call of the nil func panics. -/
theorem NewClient_nil_option_panics :
    NewClient alwaysFails.Do [none] [] = (Built.panic, []) ∧
    NewClient alwaysFails.Do [some (WithRetry 2 10), none] [] = (Built.panic, []) ∧
    (∀ c e, (NewClient alwaysFails.Do [none] []).1 ≠ Built.ret c e) := by
  refine ⟨rfl, rfl, ?_⟩
  intro c e h
  have h1 : (NewClient alwaysFails.Do [none] []).1 = Built.panic := rfl
  rw [h1] at h
  cases h

/-- C10, amended: `NewClient` starts from the default client (default transport,
single execution) and calls the options in the order given, each on the client
and the trace the previous one left. If an option returns an error after options
that all returned without error, the result is a nil client with that error, and
the trace is the one that option left, whatever follows it in the list (nil
options included): no later option is called. If every option is non-nil and
returns without error, the result is a nil error with the client, and the trace,
obtained by applying all options left to right. If the option reached after
options that succeeded is nil, or panics, `NewClient` panics. One of the three
always happens. For options built by `WithRetry` or `WithClient` there is no
panic and no effect, and a client returned has a non-nil transport and a
non-nil strategy. -/
theorem NewClient_spec (net : Nat → Request → Option Response × Option Error) (w : Trace) :
    NewClient net [] w =
      (Built.ret (some { client := some { DisableKeepAlives := true, Do := net },
                         execute := some singleExecute }) none, w) ∧
    (∀ (pre : List ClientOption) (opt : ClientOption) (post : List (Option ClientOption))
        (c1 : Client) (err : Error) (w1 : Trace),
      allSucceed (defaultClient net) w pre →
      opt (applyAll (defaultClient net) w pre).1 (applyAll (defaultClient net) w pre).2 =
        (Applied.ret c1 (some err), w1) →
      NewClient net (pre.map some ++ some opt :: post) w = (Built.ret none (some err), w1)) ∧
    (∀ opts : List ClientOption, allSucceed (defaultClient net) w opts →
      NewClient net (opts.map some) w =
        (Built.ret (some (applyAll (defaultClient net) w opts).1) none,
          (applyAll (defaultClient net) w opts).2)) ∧
    (∀ (pre : List ClientOption) (post : List (Option ClientOption)),
      allSucceed (defaultClient net) w pre →
      NewClient net (pre.map some ++ none :: post) w =
        (Built.panic, (applyAll (defaultClient net) w pre).2)) ∧
    (∀ (pre : List ClientOption) (opt : ClientOption) (post : List (Option ClientOption))
        (w1 : Trace),
      allSucceed (defaultClient net) w pre →
      opt (applyAll (defaultClient net) w pre).1 (applyAll (defaultClient net) w pre).2 =
        (Applied.panic, w1) →
      NewClient net (pre.map some ++ some opt :: post) w = (Built.panic, w1)) ∧
    (∀ opts : List (Option ClientOption),
      (∃ c w1, NewClient net opts w = (Built.ret (some c) none, w1)) ∨
      (∃ err w1, NewClient net opts w = (Built.ret none (some err), w1)) ∨
      (∃ w1, NewClient net opts w = (Built.panic, w1))) ∧
    (∀ opts : List (Option ClientOption),
      (∀ o, o ∈ opts → ∃ f, o = some f ∧ builtIn f) →
      (∃ c, NewClient net opts w = (Built.ret (some c) none, w) ∧
        c.client ≠ none ∧ c.execute ≠ none) ∨
      (∃ err, NewClient net opts w = (Built.ret none (some err), w))) := by
  refine ⟨rfl, ?_, ?_, ?_, ?_, ?_, ?_⟩
  · intro pre opt post c1 err w1 hpre hopt
    rw [NewClient_def]
    rw [applyOptions_succeeding pre (defaultClient net) w hpre]
    exact applyOptions_cons_err _ c1 _ w1 opt post err hopt
  · intro opts hall
    have := applyOptions_succeeding opts (defaultClient net) w hall []
    rw [List.append_nil] at this
    rw [NewClient_def]
    rw [this]
    rfl
  · intro pre post hpre
    rw [NewClient_def]
    rw [applyOptions_succeeding pre (defaultClient net) w hpre]
    rfl
  · intro pre opt post w1 hpre hopt
    rw [NewClient_def]
    rw [applyOptions_succeeding pre (defaultClient net) w hpre]
    exact applyOptions_cons_panic _ _ w1 opt post hopt
  · intro opts
    exact applyOptions_total opts _ w
  · intro opts hb
    exact applyOptions_builtIn opts (defaultClient net) w hb (by simp [defaultClient])
      (by simp [defaultClient])

/-- `allSucceed` for one option that returns without error. -/
theorem allSucceed_singleton (c c2 : Client) (w w2 : Trace) (o : ClientOption)
    (h : o c w = (Applied.ret c2 none, w2)) : allSucceed c w [o] := by
  intro p1 o1 p2 hsplit
  cases p1 with
  | nil =>
    simp only [List.nil_append, List.cons.injEq] at hsplit
    rw [← hsplit.1]
    exact ⟨c2, w2, h⟩
  | cons a p1 =>
    simp only [List.cons_append, List.cons.injEq] at hsplit
    exact absurd hsplit.2 (by simp)

/-- The amended C10 at an option list whose second option fails and is followed
by an option with an effect and a nil option, neither of which is called; at a
list of one option that succeeds with an effect; at a nil option and at a
panicking option after that one; and at a list of two built-in options. -/
theorem NewClient_spec_witness :
    NewClient alwaysFails.Do
        ([WithClient (some redirectRefused)].map some ++
          some (WithRetry 2 (-5)) :: [some sleepingOption, none]) [] =
      (Built.ret none (some (Error.errorf "negative timeout: %s" (-5))), []) ∧
    NewClient alwaysFails.Do ([sleepingOption].map some) [] =
      (Built.ret (some (defaultClient alwaysFails.Do)) none, [Event.sleep 1]) ∧
    NewClient alwaysFails.Do ([sleepingOption].map some ++ none :: [some sleepingOption]) [] =
      (Built.panic, [Event.sleep 1]) ∧
    NewClient alwaysFails.Do
        ([sleepingOption].map some ++ some panickingOption :: [some sleepingOption]) [] =
      (Built.panic, [Event.sleep 1, Event.sleep 1]) ∧
    ((∃ c, NewClient alwaysFails.Do
          [some (WithRetry 2 10), some (WithClient (some redirectRefused))] [] =
        (Built.ret (some c) none, []) ∧ c.client ≠ none ∧ c.execute ≠ none) ∨
      (∃ err, NewClient alwaysFails.Do
          [some (WithRetry 2 10), some (WithClient (some redirectRefused))] [] =
        (Built.ret none (some err), []))) :=
  ⟨(NewClient_spec alwaysFails.Do []).2.1 [WithClient (some redirectRefused)]
      (WithRetry 2 (-5)) [some sleepingOption, none] _ _ _
      (allSucceed_singleton _ _ _ _ _ rfl) rfl,
    (NewClient_spec alwaysFails.Do []).2.2.1 [sleepingOption]
      (allSucceed_singleton _ _ _ _ _ rfl),
    (NewClient_spec alwaysFails.Do []).2.2.2.1 [sleepingOption] [some sleepingOption]
      (allSucceed_singleton _ _ _ _ _ rfl),
    (NewClient_spec alwaysFails.Do []).2.2.2.2.1 [sleepingOption] panickingOption
      [some sleepingOption] _ (allSucceed_singleton _ _ _ _ _ rfl) rfl,
    (NewClient_spec alwaysFails.Do []).2.2.2.2.2.2
      [some (WithRetry 2 10), some (WithClient (some redirectRefused))]
      (by
        intro o ho
        simp only [List.mem_cons, List.mem_singleton, List.not_mem_nil, or_false] at ho
        rcases ho with ho | ho
        · exact ⟨_, ho, Or.inl ⟨2, 10, rfl⟩⟩
        · exact ⟨_, ho, Or.inr ⟨some redirectRefused, rfl⟩⟩)⟩

end http
